import Mathlib

/-!
Verification of the analysis engine of the MCP code-review server.

The definitions below are a shallow embedding of the code in
`src/core/analyzer.py` and `src/utils/helpers.py`: issue records, the
three scoring functions, the pattern rule engine (the regular
expressions of `find_security_patterns` are transcribed as executable
character-list matchers with Python `re.search` semantics), the
suggestion generator, the repository aggregation loop, and the language
registry.  File contents are `List Char` (one Python `str`), issues and
metrics are structures mirroring the dictionaries of the source.
-/

namespace MCP

/-- An issue record as built by the analyzer: the `category`, `type`,
`severity`, `description`, `line` and `code` keys of the Python dict
(`src/core/analyzer.py`).  `line` is 1-based, 0 for file level. -/
structure Issue where
  category : String
  type : String
  severity : String
  description : String
  line : Nat
  code : String
deriving DecidableEq, Repr

/-- The metric dictionary produced by `calculate_complexity`
(`src/utils/helpers.py` line 78): the six integer metrics. -/
structure Metrics where
  lines_of_code : Nat
  blank_lines : Nat
  comment_lines : Nat
  cyclomatic_complexity : Nat
  functions : Nat
  classes : Nat
deriving DecidableEq, Repr

/-- Per-issue security penalty: the `if severity == 'high' / 'medium' / else`
chain of `_calculate_security_score` (analyzer.py lines 1129-1137).
Any severity other than `high`/`medium` falls into the `else` (low) branch. -/
def security_issue_penalty (sev : String) : Nat :=
  if sev = "high" then 20 else if sev = "medium" then 10 else 5

/-- `_calculate_security_score` (analyzer.py lines 1123-1140): early
return 100 on an empty issue list, otherwise `max(0, 100 - penalty)`
where the penalty sums `security_issue_penalty` over issues whose
category is `security` (others contribute 0, as the loop skips them). -/
def calculate_security_score (issues : List Issue) : Int :=
  if issues.isEmpty then 100
  else
    max 0 (100 - ((issues.map fun i =>
      if i.category = "security" then security_issue_penalty i.severity else 0).sum : Int))

/-- Per-issue quality penalty (analyzer.py lines 1150-1157). -/
def quality_issue_penalty (sev : String) : Nat :=
  if sev = "high" then 15 else if sev = "medium" then 8 else 3

/-- `_calculate_quality_score` (analyzer.py lines 1142-1169): issue
penalties over quality-category issues, plus a complexity penalty
`min(20, complexity - 10)` when complexity > 10 and a size penalty
`min(10, (lines_of_code - 500) // 100)` when lines_of_code > 500. -/
def calculate_quality_score (issues : List Issue) (metrics : Metrics) : Int :=
  let issuePenalty := (issues.map fun i =>
    if i.category = "quality" then quality_issue_penalty i.severity else 0).sum
  let complexityPenalty :=
    if metrics.cyclomatic_complexity > 10 then
      min 20 (metrics.cyclomatic_complexity - 10) else 0
  let sizePenalty :=
    if metrics.lines_of_code > 500 then
      min 10 ((metrics.lines_of_code - 500) / 100) else 0
  max 0 (100 - ((issuePenalty + complexityPenalty + sizePenalty : Nat) : Int))

/-- Per-issue performance penalty (analyzer.py lines 1179-1186). -/
def performance_issue_penalty (sev : String) : Nat :=
  if sev = "high" then 20 else if sev = "medium" then 12 else 5

/-- `_calculate_performance_score` (analyzer.py lines 1171-1189). -/
def calculate_performance_score (issues : List Issue) : Int :=
  max 0 (100 - ((issues.map fun i =>
    if i.category = "performance" then performance_issue_penalty i.severity else 0).sum : Int))

/-- The three severity labels actually produced by the rule tables. -/
def severity_labels : List String := ["high", "medium", "low"]

-- Helper: a sum of `if p then f else 0` over a list equals the sum of `g`
-- over the filtered list, whenever `f` and `g` agree on elements kept.
theorem sum_map_ite_eq_sum_filter {α : Type} (p : α → Prop) [DecidablePred p]
    (f g : α → Nat) :
  ∀ (l : List α), (∀ a ∈ l, p a → f a = g a) →
    (l.map fun a => if p a then f a else 0).sum =
      ((l.filter fun a => decide (p a)).map g).sum := by
  intro l
  induction l with
  | nil => intro _; rfl
  | cons x xs ih =>
    intro h
    have ih' := ih (fun a ha hpa => h a (List.mem_cons_of_mem x ha) hpa)
    by_cases hx : p x
    · simp [List.filter_cons, hx, ih', h x (List.mem_cons_self x xs) hx]
    · simp [List.filter_cons, hx, ih']

/-- The severity weighting stated by the specification for security
issues: 20 for high, 10 for medium, 5 for low. -/
def spec_security_weight (sev : String) : Nat :=
  if sev = "high" then 20 else if sev = "medium" then 10 else if sev = "low" then 5 else 0

/-- The severity weighting stated by the specification for quality
issues: 15 for high, 8 for medium, 3 for low. -/
def spec_quality_weight (sev : String) : Nat :=
  if sev = "high" then 15 else if sev = "medium" then 8 else if sev = "low" then 3 else 0

/-- C1: for every list of issues whose severities are among
high/medium/low, the security score is `max 0 (100 - Σ w(severity))`
where `w` is 20/10/5, the sum ranging over issues of category
`security` only; and on the empty list the score is exactly 100. -/
theorem C1_security_score_formula (issues : List Issue)
    (h : ∀ i ∈ issues, i.severity ∈ severity_labels) :
    calculate_security_score issues =
      max 0 (100 - (((issues.filter fun i => i.category = "security").map
        fun i => spec_security_weight i.severity).sum : Int)) ∧
    (issues = [] → calculate_security_score issues = 100) := by
  constructor
  · unfold calculate_security_score
    have hsum : (issues.map fun i =>
        if i.category = "security" then security_issue_penalty i.severity else 0).sum =
        ((issues.filter fun i => i.category = "security").map
          fun i => spec_security_weight i.severity).sum := by
      apply sum_map_ite_eq_sum_filter
      intro a ha _
      have := h a ha
      simp only [severity_labels, List.mem_cons, List.not_mem_nil, or_false] at this
      rcases this with h1 | h1 | h1 <;>
        simp [security_issue_penalty, spec_security_weight, h1]
    rw [hsum]
    by_cases he : issues.isEmpty
    · have : issues = [] := List.isEmpty_iff.mp he
      subst this
      simp
    · simp [he]
  · intro he
    subst he
    rfl

/-- Witness for C1: a concrete mixed issue list (one high security issue,
one medium security issue, one low quality issue): the hypotheses hold
and the formula evaluates to `max 0 (100 - 30) = 70`. -/
theorem C1_security_score_formula_witness :
    calculate_security_score
      [⟨"security", "hardcoded_password", "high", "d1", 1, "c1"⟩,
       ⟨"security", "hardcoded_token", "medium", "d2", 2, "c2"⟩,
       ⟨"quality", "long_line", "low", "d3", 3, "c3"⟩] = 70 := by
  have h := C1_security_score_formula
      [⟨"security", "hardcoded_password", "high", "d1", 1, "c1"⟩,
       ⟨"security", "hardcoded_token", "medium", "d2", 2, "c2"⟩,
       ⟨"quality", "long_line", "low", "d3", 3, "c3"⟩] (by decide)
  rw [h.1]
  decide

/-- C2: for every issue list (with well-formed severities) and metric
set, the quality score is `max 0` of 100 minus the quality-issue
penalties (15/8/3 over quality-category issues), minus
`min 20 (complexity - 10)` when complexity exceeds 10, minus
`min 10 ((lines_of_code - 500) / 100)` when lines_of_code exceeds 500;
the arithmetic on the right-hand side is over `Int`, matching the
specification's formula.  The concrete scenario of the claim (9 medium
quality issues, small metrics, score 28) is checked by the witness. -/
theorem C2_quality_score_formula (issues : List Issue) (m : Metrics)
    (h : ∀ i ∈ issues, i.severity ∈ severity_labels) :
    calculate_quality_score issues m =
      max 0 (100 - (((issues.filter fun i => i.category = "quality").map
          fun i => spec_quality_weight i.severity).sum : Int)
        - (if 10 < m.cyclomatic_complexity then
             min 20 ((m.cyclomatic_complexity : Int) - 10) else 0)
        - (if 500 < m.lines_of_code then
             min 10 (((m.lines_of_code : Int) - 500) / 100) else 0)) := by
  simp only [calculate_quality_score]
  have hsum : (issues.map fun i =>
      if i.category = "quality" then quality_issue_penalty i.severity else 0).sum =
      ((issues.filter fun i => i.category = "quality").map
        fun i => spec_quality_weight i.severity).sum := by
    apply sum_map_ite_eq_sum_filter
    intro a ha _
    have := h a ha
    simp only [severity_labels, List.mem_cons, List.not_mem_nil, or_false] at this
    rcases this with h1 | h1 | h1 <;>
      simp [quality_issue_penalty, spec_quality_weight, h1]
  have hc : ((if 10 < m.cyclomatic_complexity then
        min 20 (m.cyclomatic_complexity - 10) else 0 : Nat) : Int) =
      (if 10 < m.cyclomatic_complexity then
        min 20 ((m.cyclomatic_complexity : Int) - 10) else 0) := by
    by_cases hcc : 10 < m.cyclomatic_complexity
    · simp only [hcc, if_pos]
      push_cast [Nat.cast_sub hcc.le]
      rfl
    · simp [hcc]
  have hs : ((if 500 < m.lines_of_code then
        min 10 ((m.lines_of_code - 500) / 100) else 0 : Nat) : Int) =
      (if 500 < m.lines_of_code then
        min 10 (((m.lines_of_code : Int) - 500) / 100) else 0) := by
    by_cases hl : 500 < m.lines_of_code
    · simp only [hl, if_pos]
      push_cast [Nat.cast_sub hl.le]
      rfl
    · simp [hl]
  rw [show ∀ a b c : Nat, ((a + b + c : Nat) : Int) = (a : Int) + (b : Int) + (c : Int)
        from fun a b c => by push_cast; ring]
  rw [hsum, hc, hs]
  ring_nf

/-- Witness for C2: nine medium-severity quality issues, complexity 10
and 9 lines: the severity hypothesis holds and the score is exactly
`max 0 (100 - 9 * 8) = 28`, the concrete scenario of the claim. -/
theorem C2_quality_score_formula_witness :
    calculate_quality_score
      (List.replicate 9 ⟨"quality", "inconsistent_indentation", "medium", "d", 1, "c"⟩)
      ⟨9, 0, 0, 10, 0, 0⟩ = 28 := by
  have h := C2_quality_score_formula
      (List.replicate 9 ⟨"quality", "inconsistent_indentation", "medium", "d", 1, "c"⟩)
      ⟨9, 0, 0, 10, 0, 0⟩ (by decide)
  rw [h]
  decide

/-- C3: all three scoring functions return values in the closed
interval [0, 100], for every issue list (however pathological) and
every metric set. -/
theorem C3_scores_bounded (issues : List Issue) (m : Metrics) :
    (0 ≤ calculate_security_score issues ∧ calculate_security_score issues ≤ 100) ∧
    (0 ≤ calculate_quality_score issues m ∧ calculate_quality_score issues m ≤ 100) ∧
    (0 ≤ calculate_performance_score issues ∧ calculate_performance_score issues ≤ 100) := by
  refine ⟨⟨?_, ?_⟩, ⟨?_, ?_⟩, ⟨?_, ?_⟩⟩
  · unfold calculate_security_score
    split
    · norm_num
    · exact le_max_left 0 _
  · unfold calculate_security_score
    split
    · norm_num
    · apply max_le (by norm_num)
      omega
  · exact le_max_left 0 _
  · apply max_le (by norm_num)
    omega
  · exact le_max_left 0 _
  · apply max_le (by norm_num)
    omega

/-! ## Pattern rule engine (`find_security_patterns`, helpers.py lines 397-460)

The regular expressions of the source are transcribed as executable
matchers over `List Char`.  `searchSuffixes` gives `re.search`
semantics (try the pattern at every start position); each pattern
matcher follows the regex literally, with `re.IGNORECASE` rendered as
comparison of lowercased characters. -/

/-- Python `\s` for ASCII text: space, tab, newline, carriage return,
vertical tab, form feed. -/
def isWsChar (c : Char) : Bool :=
  c = ' ' || c = '\t' || c = '\n' || c = '\r' || c = '\x0b' || c = '\x0c'

/-- The `['"]` character class of the credential regexes. -/
def isQuoteChar (c : Char) : Bool := c = '\'' || c = '"'

/-- Case-insensitive character comparison (`re.IGNORECASE`). -/
def ciEq (a b : Char) : Bool := a.toLower = b.toLower

/-- Case-insensitive equality of character lists. -/
def ciEqList : List Char → List Char → Bool
  | [], [] => true
  | a :: l1, b :: l2 => ciEq a b && ciEqList l1 l2
  | _, _ => false

/-- Strip a case-insensitive literal from the front, returning the rest. -/
def stripCI : List Char → List Char → Option (List Char)
  | [], l => some l
  | _ :: _, [] => none
  | k :: ks, c :: cs => if ciEq k c then stripCI ks cs else none

/-- `re.search` semantics: try the pattern at every position of the line. -/
def searchSuffixes (p : List Char → Bool) : List Char → Bool
  | [] => p []
  | c :: rest => p (c :: rest) || searchSuffixes p rest

/-- Run a matcher on what remains after a strip succeeds. -/
def stripThen (strip : List Char → Option (List Char))
    (after : List Char → Bool) (l : List Char) : Bool :=
  match strip l with
  | some r => after r
  | none => false

/-- `[^'"]*['"]`: any non-quote characters, then a closing quote. -/
def matchClose : List Char → Bool
  | [] => false
  | c :: rest => if isQuoteChar c then true else matchClose rest

/-- `[^'"]+['"]`: at least one non-quote character, then a closing quote. -/
def matchBody : List Char → Bool
  | [] => false
  | c :: rest => !isQuoteChar c && matchClose rest

/-- `\s*['"][^'"]+['"]`: optional whitespace, an opening quote, a body. -/
def matchAfterEq (l : List Char) : Bool :=
  match l.dropWhile isWsChar with
  | q :: rest => isQuoteChar q && matchBody rest
  | [] => false

/-- `\s*=\s*['"][^'"]+['"]`: the shared tail of the four credential regexes. -/
def matchAssign (l : List Char) : Bool :=
  match l.dropWhile isWsChar with
  | c :: rest => c = '=' && matchAfterEq rest
  | [] => false

/-- `api[_-]?key` (case-insensitive): `api`, an optional `_` or `-`, `key`. -/
def stripApiKey (l : List Char) : Option (List Char) :=
  match stripCI ("api".toList) l with
  | none => none
  | some rest =>
    match rest with
    | [] => none
    | c :: rest2 =>
      if c = '_' || c = '-' then stripCI ("key".toList) rest2
      else stripCI ("key".toList) rest

/-- Regex `password\s*=\s*['"][^'"]+['"]` with `re.search`/`re.IGNORECASE`. -/
def passwordFires (l : List Char) : Bool :=
  searchSuffixes (stripThen (stripCI ("password".toList)) matchAssign) l

/-- Regex `api[_-]?key\s*=\s*['"][^'"]+['"]`. -/
def apiKeyFires (l : List Char) : Bool :=
  searchSuffixes (stripThen stripApiKey matchAssign) l

/-- Regex `secret\s*=\s*['"][^'"]+['"]`. -/
def secretFires (l : List Char) : Bool :=
  searchSuffixes (stripThen (stripCI ("secret".toList)) matchAssign) l

/-- Regex `token\s*=\s*['"][^'"]+['"]`. -/
def tokenFires (l : List Char) : Bool :=
  searchSuffixes (stripThen (stripCI ("token".toList)) matchAssign) l

/-- `\s*\(`: optional whitespace then an opening parenthesis. -/
def matchWsOpen (l : List Char) : Bool :=
  match l.dropWhile isWsChar with
  | c :: _ => c = '('
  | [] => false

/-- Regex `eval\s*\(` (Python and JS pattern tables). -/
def evalCallFires (l : List Char) : Bool :=
  searchSuffixes (stripThen (stripCI ("eval".toList)) matchWsOpen) l

/-- Regex `exec\s*\(`. -/
def execCallFires (l : List Char) : Bool :=
  searchSuffixes (stripThen (stripCI ("exec".toList)) matchWsOpen) l

/-- Regex `os\.system\s*\(`. -/
def osSystemFires (l : List Char) : Bool :=
  searchSuffixes (stripThen (stripCI ("os.system".toList)) matchWsOpen) l

/-- `shell\s*=\s*True` at the current position (case-insensitive). -/
def matchShellTrue (l : List Char) : Bool :=
  stripThen (stripCI ("shell".toList)) (fun r =>
    match r.dropWhile isWsChar with
    | c :: r2 => c = '=' && (stripCI ("true".toList) (r2.dropWhile isWsChar)).isSome
    | [] => false) l

/-- `[^)]*shell\s*=\s*True`: look for `shell=True` without crossing `)`. -/
def scanShellArg : List Char → Bool
  | [] => false
  | c :: rest =>
    if matchShellTrue (c :: rest) then true
    else if c = ')' then false else scanShellArg rest

/-- Regex `subprocess\.call\s*\([^)]*shell\s*=\s*True`. -/
def subprocessShellFires (l : List Char) : Bool :=
  searchSuffixes (stripThen (stripCI ("subprocess.call".toList)) (fun r =>
    match r.dropWhile isWsChar with
    | c :: rest => c = '(' && scanShellArg rest
    | [] => false)) l

/-- Regex `pickle\.loads?\s*\(`: the optional `s` is consumed when present
(backtracking to the empty alternative can never succeed, as `s` is
neither whitespace nor `(`). -/
def pickleLoadFires (l : List Char) : Bool :=
  searchSuffixes (stripThen (stripCI ("pickle.load".toList)) (fun r =>
    match r with
    | c :: rest => if c.toLower = 's' then matchWsOpen rest else matchWsOpen (c :: rest)
    | [] => false)) l

/-- Regex `innerHTML\s*=`. -/
def innerHtmlFires (l : List Char) : Bool :=
  searchSuffixes (stripThen (stripCI ("innerhtml".toList)) (fun r =>
    match r.dropWhile isWsChar with
    | c :: _ => c = '='
    | [] => false)) l

/-- Regex `document\.write\s*\(`. -/
def documentWriteFires (l : List Char) : Bool :=
  searchSuffixes (stripThen (stripCI ("document.write".toList)) matchWsOpen) l

/-- Regex `new\s+Function\s*\(`. -/
def newFunctionFires (l : List Char) : Bool :=
  searchSuffixes (stripThen (stripCI ("new".toList)) (fun r =>
    match r with
    | c :: rest =>
      isWsChar c &&
        stripThen (stripCI ("function".toList)) matchWsOpen (rest.dropWhile isWsChar)
    | [] => false)) l

/-- Any quote character somewhere in the list (`.*['"]`). -/
def scanAnyQuote : List Char → Bool
  | [] => false
  | c :: rest => isQuoteChar c || scanAnyQuote rest

/-- `.*\+.*['"]`: a `+` with a quote somewhere after it. -/
def scanPlusQuote : List Char → Bool
  | [] => false
  | c :: rest => (c = '+' && scanAnyQuote rest) || scanPlusQuote rest

/-- Regex `['"].*\+.*['"]` (SQL string-concatenation pattern; lines hold
no newline, so `.` matches every character). -/
def sqlConcatFires (l : List Char) : Bool :=
  searchSuffixes (fun s =>
    match s with
    | q :: rest => isQuoteChar q && scanPlusQuote rest
    | [] => false) l

/-- `[^'"]*['"]` after a `%` (closing part of the SQL execute pattern). -/
def scanQuoteClose : List Char → Bool
  | [] => false
  | c :: rest => if isQuoteChar c then true else scanQuoteClose rest

/-- `[^'"]*%[^'"]*['"]`: a `%` inside a quote-free run, then a quote. -/
def scanPercent : List Char → Bool
  | [] => false
  | c :: rest =>
    if isQuoteChar c then false
    else if c = '%' then scanQuoteClose rest else scanPercent rest

/-- Regex `execute\s*\(\s*['"][^'\"]*%[^'\"]*['"]`. -/
def sqlExecuteFires (l : List Char) : Bool :=
  searchSuffixes (stripThen (stripCI ("execute".toList)) (fun r =>
    match r.dropWhile isWsChar with
    | c :: rest =>
      c = '(' &&
        (match rest.dropWhile isWsChar with
         | q :: rest2 => isQuoteChar q && scanPercent rest2
         | [] => false)
    | [] => false)) l

/-- One entry of the pattern tables of `find_security_patterns`:
the compiled matcher plus the `type`/`severity`/`description` issued. -/
structure PatternInfo where
  fires : List Char → Bool
  type : String
  severity : String
  description : String

/-- The four language-agnostic credential patterns
(helpers.py lines 409-434), in source order. -/
def common_patterns : List PatternInfo :=
  [⟨passwordFires, "hardcoded_password", "high", "Hardcoded password found"⟩,
   ⟨apiKeyFires, "hardcoded_api_key", "high", "Hardcoded API key found"⟩,
   ⟨secretFires, "hardcoded_secret", "high", "Hardcoded secret found"⟩,
   ⟨tokenFires, "hardcoded_token", "medium", "Hardcoded token found"⟩]

/-- `_get_python_security_patterns` (helpers.py lines 463-496). -/
def python_security_patterns : List PatternInfo :=
  [⟨evalCallFires, "dangerous_eval", "high", "Use of eval() can lead to code injection"⟩,
   ⟨execCallFires, "dangerous_exec", "high", "Use of exec() can lead to code injection"⟩,
   ⟨osSystemFires, "command_injection", "high",
     "Use of os.system() can lead to command injection"⟩,
   ⟨subprocessShellFires, "shell_injection", "high",
     "subprocess with shell=True can lead to shell injection"⟩,
   ⟨pickleLoadFires, "unsafe_deserialization", "high",
     "Pickle deserialization can execute arbitrary code"⟩]

/-- `_get_js_security_patterns` (helpers.py lines 499-526). -/
def js_security_patterns : List PatternInfo :=
  [⟨evalCallFires, "dangerous_eval", "high", "Use of eval() can lead to code injection"⟩,
   ⟨innerHtmlFires, "xss_risk", "medium", "innerHTML assignment can lead to XSS"⟩,
   ⟨documentWriteFires, "xss_risk", "medium", "document.write() can lead to XSS"⟩,
   ⟨newFunctionFires, "dynamic_function", "medium",
     "Dynamic function creation can be dangerous"⟩]

/-- `_get_sql_security_patterns` (helpers.py lines 529-544). -/
def sql_security_patterns : List PatternInfo :=
  [⟨sqlConcatFires, "sql_injection", "high",
     "Potential SQL injection via string concatenation"⟩,
   ⟨sqlExecuteFires, "sql_injection", "high",
     "Potential SQL injection via string formatting"⟩]

/-- The pattern list assembled by `find_security_patterns` for a given
language: the common patterns plus the language-specific extension. -/
def security_patterns_for (language : String) : List PatternInfo :=
  common_patterns ++
    (if language = "python" then python_security_patterns
     else if language = "javascript" || language = "typescript" then js_security_patterns
     else if language = "sql" then sql_security_patterns
     else [])

/-- Python `content.split('\n')`: always at least one (possibly empty) line. -/
def splitOnNl : List Char → List (List Char)
  | [] => [[]]
  | c :: rest =>
    if c = '\n' then [] :: splitOnNl rest
    else
      match splitOnNl rest with
      | l :: ls => (c :: l) :: ls
      | [] => [[c]]

/-- Python `str.strip()`: drop whitespace from both ends. -/
def trimChars (l : List Char) : List Char :=
  ((l.dropWhile isWsChar).reverse.dropWhile isWsChar).reverse

/-- A raw issue of `find_security_patterns` (no category yet, the
`code` snippet is the stripped line). -/
structure RawIssue where
  type : String
  severity : String
  description : String
  line : Nat
  code : String
deriving DecidableEq, Repr

/-- The nested loop of `find_security_patterns`: lines outside,
patterns inside, 1-based line numbers. -/
def scan_pattern_lines (pats : List PatternInfo) : Nat → List (List Char) → List RawIssue
  | _, [] => []
  | i, l :: ls =>
    (pats.filterMap fun p =>
      if p.fires l then
        some ⟨p.type, p.severity, p.description, i, String.mk (trimChars l)⟩
      else none) ++ scan_pattern_lines pats (i + 1) ls

/-- `find_security_patterns` (helpers.py lines 397-460), for a known
language and decodable content. -/
def find_security_patterns (language : String) (content : List Char) : List RawIssue :=
  scan_pattern_lines (security_patterns_for language) 1 (splitOnNl content)

/-- The wrapping loop of `_analyze_security` (analyzer.py lines
338-349): each raw pattern issue becomes a `security`-category issue. -/
def pattern_issue_to_security (r : RawIssue) : Issue :=
  ⟨"security", r.type, r.severity, r.description, r.line, r.code⟩

/-- The pattern-analysis part of `_analyze_security`; for a Python file
with no external tools available this is the whole security issue list. -/
def pattern_security_issues (language : String) (content : List Char) : List Issue :=
  (find_security_patterns language content).map pattern_issue_to_security

/-- C4: the file whose whole content is `password = "secret123"`,
analyzed as Python, yields exactly one security issue — type
`hardcoded_password`, severity high, line 1 — and its security score is
exactly 80. -/
theorem C4_password_secret123_scenario :
    pattern_security_issues "python" (("password = \"secret123\"").toList) =
      [⟨"security", "hardcoded_password", "high", "Hardcoded password found", 1,
        "password = \"secret123\""⟩] ∧
    calculate_security_score
      (pattern_security_issues "python" (("password = \"secret123\"").toList)) = 80 := by
  constructor
  · decide
  · decide

/-- Whether any of the four language-agnostic credential rules fires on
a line (the per-line test of `find_security_patterns`). -/
def common_credential_fires (l : List Char) : Bool :=
  common_patterns.any fun p => p.fires l

/-- Modelled from the spec: the hardcoded-credential rule as the
specification words it — one of the identifiers `password`, `api_key`,
`secret`, `token`, followed by `=` or `:` and a quoted literal string of
at least 8 characters.  (The source rules differ; this definition only
serves to compare the spec's wording against the code.) -/
def spec_quoted8 : List Char → Nat → Bool
  | [], _ => false
  | c :: rest, n => if isQuoteChar c then decide (8 ≤ n) else spec_quoted8 rest (n + 1)

/-- Modelled from the spec: `(=|:)` then a quoted literal of ≥ 8 chars
(whitespace tolerated as in the source rules). -/
def spec_assign_tail (l : List Char) : Bool :=
  match l.dropWhile isWsChar with
  | c :: rest =>
    if c = '=' || c = ':' then
      match rest.dropWhile isWsChar with
      | q :: rest2 => isQuoteChar q && spec_quoted8 rest2 0
      | [] => false
    else false
  | [] => false

/-- Modelled from the spec: the language-agnostic credential rule of
§4.3 of the specification, as worded there. -/
def spec_credential_fires (l : List Char) : Bool :=
  searchSuffixes (stripThen (stripCI ("password".toList)) spec_assign_tail) l ||
  searchSuffixes (stripThen (stripCI ("api_key".toList)) spec_assign_tail) l ||
  searchSuffixes (stripThen (stripCI ("secret".toList)) spec_assign_tail) l ||
  searchSuffixes (stripThen (stripCI ("token".toList)) spec_assign_tail) l

/-- Counterexample to C5: on the line `password="a"` the source's
credential rules fire (the quoted string only needs one character),
while the spec's ≥ 8 characters condition does not hold — so the
claimed "fires exactly when ... at least 8 characters" is false. -/
theorem C5_counterexample_short_string :
    common_credential_fires (("password=\"a\"").toList) = true ∧
    spec_credential_fires (("password=\"a\"").toList) = false := by
  constructor
  · decide
  · decide

/-! ### Exact characterization of the credential regexes (C5) -/

theorem ciEq_symm (a b : Char) : ciEq a b = ciEq b a := by
  simp [ciEq, eq_comm]

theorem quote_not_ws {c : Char} (h : isQuoteChar c = true) : isWsChar c = false := by
  simp only [isQuoteChar, Bool.or_eq_true, decide_eq_true_eq] at h
  rcases h with rfl | rfl <;> decide

theorem searchSuffixes_eq_true_iff (p : List Char → Bool) (l : List Char) :
    searchSuffixes p l = true ↔ ∃ s1 s2, l = s1 ++ s2 ∧ p s2 = true := by
  induction l with
  | nil =>
    constructor
    · intro h
      exact ⟨[], [], rfl, h⟩
    · rintro ⟨s1, s2, h, hp⟩
      obtain ⟨rfl, rfl⟩ := List.append_eq_nil.mp h.symm
      exact hp
  | cons c rest ih =>
    simp only [searchSuffixes, Bool.or_eq_true, ih]
    constructor
    · rintro (hp | ⟨s1, s2, rfl, hp⟩)
      · exact ⟨[], c :: rest, rfl, hp⟩
      · exact ⟨c :: s1, s2, rfl, hp⟩
    · rintro ⟨s1, s2, he, hp⟩
      cases s1 with
      | nil =>
        left
        rw [List.nil_append] at he
        rw [← he] at hp
        exact hp
      | cons a s1' =>
        right
        simp only [List.cons_append, List.cons.injEq] at he
        obtain ⟨rfl, rfl⟩ := he
        exact ⟨s1', s2, rfl, hp⟩

theorem stripCI_eq_some_iff (ks : List Char) :
    ∀ (l r : List Char), stripCI ks l = some r ↔
      ∃ pre, l = pre ++ r ∧ ciEqList pre ks = true := by
  induction ks with
  | nil =>
    intro l r
    constructor
    · intro h
      simp only [stripCI, Option.some.injEq] at h
      exact ⟨[], by simp [h], rfl⟩
    · rintro ⟨pre, rfl, hci⟩
      cases pre with
      | nil => rfl
      | cons a p => simp [ciEqList] at hci
  | cons k ks' ih =>
    intro l r
    cases l with
    | nil =>
      constructor
      · intro h
        simp [stripCI] at h
      · rintro ⟨pre, he, hci⟩
        obtain ⟨rfl, rfl⟩ := List.append_eq_nil.mp he.symm
        simp [ciEqList] at hci
    | cons c cs =>
      simp only [stripCI]
      by_cases hck : ciEq k c = true
      · rw [if_pos hck, ih]
        constructor
        · rintro ⟨pre', rfl, hci⟩
          refine ⟨c :: pre', rfl, ?_⟩
          simp only [ciEqList, Bool.and_eq_true]
          exact ⟨by rw [ciEq_symm]; exact hck, hci⟩
        · rintro ⟨pre, he, hci⟩
          cases pre with
          | nil => simp [ciEqList] at hci
          | cons a pre' =>
            simp only [List.cons_append, List.cons.injEq] at he
            obtain ⟨rfl, rfl⟩ := he
            simp only [ciEqList, Bool.and_eq_true] at hci
            exact ⟨pre', rfl, hci.2⟩
      · rw [if_neg hck]
        constructor
        · intro h
          simp at h
        · rintro ⟨pre, he, hci⟩
          cases pre with
          | nil => simp [ciEqList] at hci
          | cons a pre' =>
            simp only [List.cons_append, List.cons.injEq] at he
            obtain ⟨rfl, -⟩ := he
            simp only [ciEqList, Bool.and_eq_true] at hci
            exact absurd (by rw [ciEq_symm]; exact hci.1) hck

theorem dropWhile_ws_eq_cons_iff {x : Char} (hx : isWsChar x = false) :
    ∀ (l r : List Char), l.dropWhile isWsChar = x :: r ↔
      ∃ w, l = w ++ x :: r ∧ w.all isWsChar = true := by
  intro l
  induction l with
  | nil =>
    intro r
    constructor
    · intro h
      simp [List.dropWhile] at h
    · rintro ⟨w, he, -⟩
      exact absurd he.symm (by simp)
  | cons c cs ih =>
    intro r
    by_cases hc : isWsChar c = true
    · rw [List.dropWhile_cons_of_pos hc, ih]
      constructor
      · rintro ⟨w', rfl, hall⟩
        exact ⟨c :: w', rfl, by simp [hc, hall]⟩
      · rintro ⟨w, he, hall⟩
        cases w with
        | nil =>
          simp only [List.nil_append, List.cons.injEq] at he
          obtain ⟨rfl, -⟩ := he
          exact absurd hc (by simp [hx])
        | cons a w' =>
          simp only [List.cons_append, List.cons.injEq] at he
          obtain ⟨rfl, rfl⟩ := he
          simp only [List.all_cons, Bool.and_eq_true] at hall
          exact ⟨w', rfl, hall.2⟩
    · rw [List.dropWhile_cons_of_neg (by simpa using hc)]
      constructor
      · intro he
        simp only [List.cons.injEq] at he
        obtain ⟨rfl, rfl⟩ := he
        exact ⟨[], rfl, rfl⟩
      · rintro ⟨w, he, hall⟩
        cases w with
        | nil => simpa using he
        | cons a w' =>
          simp only [List.cons_append, List.cons.injEq] at he
          obtain ⟨rfl, -⟩ := he
          simp only [List.all_cons, Bool.and_eq_true] at hall
          exact absurd hall.1 hc

theorem matchClose_eq_true_iff :
    ∀ l, matchClose l = true ↔
      ∃ b q2 s, l = b ++ q2 :: s ∧ b.all (fun c => !isQuoteChar c) = true ∧
        isQuoteChar q2 = true := by
  intro l
  induction l with
  | nil =>
    constructor
    · intro h
      simp [matchClose] at h
    · rintro ⟨b, q2, s, he, -, -⟩
      exact absurd he.symm (by simp)
  | cons c rest ih =>
    by_cases hq : isQuoteChar c = true
    · simp only [matchClose, hq, if_true]
      constructor
      · intro _
        exact ⟨[], c, rest, rfl, rfl, hq⟩
      · intro _
        trivial
    · have hq' : isQuoteChar c = false := by simpa using hq
      simp only [matchClose, hq', Bool.false_eq_true, if_false, ih]
      constructor
      · rintro ⟨b, q2, s, rfl, hall, hq2⟩
        exact ⟨c :: b, q2, s, rfl, by simp [hall, hq'], hq2⟩
      · rintro ⟨b, q2, s, he, hall, hq2⟩
        cases b with
        | nil =>
          simp only [List.nil_append, List.cons.injEq] at he
          obtain ⟨rfl, -⟩ := he
          exact absurd hq2 (by simp [hq'])
        | cons a b' =>
          simp only [List.cons_append, List.cons.injEq] at he
          obtain ⟨rfl, rfl⟩ := he
          simp only [List.all_cons, Bool.and_eq_true] at hall
          exact ⟨b', q2, s, rfl, hall.2, hq2⟩

theorem matchBody_eq_true_iff (l : List Char) :
    matchBody l = true ↔
      ∃ b q2 s, l = b ++ q2 :: s ∧ b ≠ [] ∧
        b.all (fun c => !isQuoteChar c) = true ∧ isQuoteChar q2 = true := by
  cases l with
  | nil =>
    constructor
    · intro h
      simp [matchBody] at h
    · rintro ⟨b, q2, s, he, -, -, -⟩
      exact absurd he.symm (by simp)
  | cons c rest =>
    simp only [matchBody, Bool.and_eq_true, Bool.not_eq_true']
    constructor
    · rintro ⟨hc, hcl⟩
      obtain ⟨b', q2, s, rfl, hall, hq2⟩ := (matchClose_eq_true_iff rest).mp hcl
      exact ⟨c :: b', q2, s, rfl, by simp, by simp [hall, hc], hq2⟩
    · rintro ⟨b, q2, s, he, hb, hall, hq2⟩
      cases b with
      | nil => exact absurd rfl hb
      | cons a b' =>
        simp only [List.cons_append, List.cons.injEq] at he
        obtain ⟨rfl, rfl⟩ := he
        simp only [List.all_cons, Bool.and_eq_true, Bool.not_eq_true'] at hall
        exact ⟨hall.1, (matchClose_eq_true_iff _).mpr ⟨b', q2, s, rfl, by simp [hall.2], hq2⟩⟩

theorem matchAfterEq_eq_true_iff (l : List Char) :
    matchAfterEq l = true ↔
      ∃ w2 q b q2 s, l = w2 ++ q :: (b ++ q2 :: s) ∧ w2.all isWsChar = true ∧
        isQuoteChar q = true ∧ b ≠ [] ∧
        b.all (fun c => !isQuoteChar c) = true ∧ isQuoteChar q2 = true := by
  unfold matchAfterEq
  constructor
  · intro h
    cases hd : l.dropWhile isWsChar with
    | nil =>
      rw [hd] at h
      cases h
    | cons q rest =>
      rw [hd] at h
      simp only [Bool.and_eq_true] at h
      obtain ⟨hq, hb⟩ := h
      obtain ⟨w2, rfl, hw2⟩ := (dropWhile_ws_eq_cons_iff (quote_not_ws hq) l rest).mp hd
      obtain ⟨b, q2, s, rfl, hbne, hball, hq2⟩ := (matchBody_eq_true_iff rest).mp hb
      exact ⟨w2, q, b, q2, s, rfl, hw2, hq, hbne, hball, hq2⟩
  · rintro ⟨w2, q, b, q2, s, rfl, hw2, hq, hbne, hball, hq2⟩
    have hd : (w2 ++ q :: (b ++ q2 :: s)).dropWhile isWsChar = q :: (b ++ q2 :: s) :=
      (dropWhile_ws_eq_cons_iff (quote_not_ws hq) _ _).mpr ⟨w2, rfl, hw2⟩
    rw [hd]
    simp only [Bool.and_eq_true]
    exact ⟨hq, (matchBody_eq_true_iff _).mpr ⟨b, q2, s, rfl, hbne, hball, hq2⟩⟩

theorem matchAssign_eq_true_iff (l : List Char) :
    matchAssign l = true ↔
      ∃ w1 rest, l = w1 ++ '=' :: rest ∧ w1.all isWsChar = true ∧
        matchAfterEq rest = true := by
  unfold matchAssign
  constructor
  · intro h
    cases hd : l.dropWhile isWsChar with
    | nil =>
      rw [hd] at h
      cases h
    | cons c rest =>
      rw [hd] at h
      simp only [Bool.and_eq_true, decide_eq_true_eq] at h
      obtain ⟨rfl, hae⟩ := h
      obtain ⟨w1, rfl, hw1⟩ := (dropWhile_ws_eq_cons_iff (by decide) l rest).mp hd
      exact ⟨w1, rest, rfl, hw1, hae⟩
  · rintro ⟨w1, rest, rfl, hw1, hae⟩
    have hd : (w1 ++ '=' :: rest).dropWhile isWsChar = '=' :: rest :=
      (dropWhile_ws_eq_cons_iff (by decide) _ _).mpr ⟨w1, rfl, hw1⟩
    rw [hd]
    simp [hae]

theorem stripThen_eq_true_iff (strip : List Char → Option (List Char))
    (after : List Char → Bool) (l : List Char) :
    stripThen strip after l = true ↔ ∃ r, strip l = some r ∧ after r = true := by
  unfold stripThen
  cases hs : strip l with
  | none => simp
  | some r => simp

/-- The canonical decomposition matched by one credential regex, with
`kwForm` the shape of the matched keyword. -/
def credAssignDecomp (kwForm : List Char → Prop) (l : List Char) : Prop :=
  ∃ s1 pre w1 w2 q b q2 s2,
    l = s1 ++ (pre ++ (w1 ++ '=' :: (w2 ++ q :: (b ++ q2 :: s2)))) ∧
    kwForm pre ∧ w1.all isWsChar = true ∧ w2.all isWsChar = true ∧
    isQuoteChar q = true ∧ isQuoteChar q2 = true ∧
    b ≠ [] ∧ b.all (fun c => !isQuoteChar c) = true

theorem searchStripAssign_iff (strip : List Char → Option (List Char))
    (kwForm : List Char → Prop)
    (hstrip : ∀ s r, strip s = some r ↔ ∃ pre, s = pre ++ r ∧ kwForm pre)
    (l : List Char) :
    searchSuffixes (stripThen strip matchAssign) l = true ↔
      credAssignDecomp kwForm l := by
  rw [searchSuffixes_eq_true_iff]
  constructor
  · rintro ⟨s1, s2, rfl, hp⟩
    obtain ⟨r, hs, hm⟩ := (stripThen_eq_true_iff _ _ _).mp hp
    obtain ⟨pre, rfl, hkw⟩ := (hstrip _ _).mp hs
    obtain ⟨w1, rest, rfl, hw1, hae⟩ := (matchAssign_eq_true_iff r).mp hm
    obtain ⟨w2, q, b, q2, s, rfl, hw2, hq, hbne, hball, hq2⟩ :=
      (matchAfterEq_eq_true_iff rest).mp hae
    exact ⟨s1, pre, w1, w2, q, b, q2, s, rfl, hkw, hw1, hw2, hq, hq2, hbne, hball⟩
  · rintro ⟨s1, pre, w1, w2, q, b, q2, s2, rfl, hkw, hw1, hw2, hq, hq2, hbne, hball⟩
    refine ⟨s1, pre ++ (w1 ++ '=' :: (w2 ++ q :: (b ++ q2 :: s2))), rfl, ?_⟩
    apply (stripThen_eq_true_iff _ _ _).mpr
    refine ⟨w1 ++ '=' :: (w2 ++ q :: (b ++ q2 :: s2)), (hstrip _ _).mpr ⟨pre, rfl, hkw⟩, ?_⟩
    apply (matchAssign_eq_true_iff _).mpr
    refine ⟨w1, w2 ++ q :: (b ++ q2 :: s2), rfl, hw1, ?_⟩
    exact (matchAfterEq_eq_true_iff _).mpr ⟨w2, q, b, q2, s2, rfl, hw2, hq, hbne, hball, hq2⟩

/-- The keyword shape of the `api[_-]?key` regex. -/
def apiKeyForm (pre : List Char) : Prop :=
  ∃ a mid k, pre = a ++ mid ++ k ∧ ciEqList a ("api".toList) = true ∧
    (mid = [] ∨ mid = ['_'] ∨ mid = ['-']) ∧ ciEqList k ("key".toList) = true

theorem stripApiKey_eq_some_iff (l r : List Char) :
    stripApiKey l = some r ↔ ∃ pre, l = pre ++ r ∧ apiKeyForm pre := by
  unfold stripApiKey
  constructor
  · intro h
    cases h1 : stripCI ("api".toList) l with
    | none =>
      rw [h1] at h
      cases h
    | some rest =>
      rw [h1] at h
      obtain ⟨a, rfl, ha⟩ := (stripCI_eq_some_iff _ l rest).mp h1
      cases rest with
      | nil => simp at h
      | cons c rest2 =>
        have h2 : (if (decide (c = '_') || decide (c = '-')) = true
            then stripCI ("key".toList) rest2
            else stripCI ("key".toList) (c :: rest2)) = some r := h
        by_cases hc : (decide (c = '_') || decide (c = '-')) = true
        · rw [if_pos hc] at h2
          obtain ⟨k, rfl, hk⟩ := (stripCI_eq_some_iff _ rest2 r).mp h2
          refine ⟨a ++ [c] ++ k, by simp, a, [c], k, rfl, ha, ?_, hk⟩
          simp only [Bool.or_eq_true, decide_eq_true_eq] at hc
          rcases hc with rfl | rfl
          · exact Or.inr (Or.inl rfl)
          · exact Or.inr (Or.inr rfl)
        · rw [if_neg hc] at h2
          obtain ⟨k, hkeq, hk⟩ := (stripCI_eq_some_iff _ (c :: rest2) r).mp h2
          refine ⟨a ++ [] ++ k, ?_, a, [], k, rfl, ha, Or.inl rfl, hk⟩
          simp [hkeq]
  · rintro ⟨pre, rfl, a, mid, k, rfl, ha, hmid, hk⟩
    have h1 : stripCI ("api".toList) ((a ++ mid ++ k) ++ r) = some (mid ++ (k ++ r)) := by
      apply (stripCI_eq_some_iff _ _ _).mpr
      exact ⟨a, by simp, ha⟩
    rw [h1]
    rcases hmid with rfl | rfl | rfl
    · cases k with
      | nil => simp [ciEqList] at hk
      | cons k0 k' =>
        have hkey : ("key".toList) = ['k', 'e', 'y'] := rfl
        rw [hkey] at hk
        simp only [ciEqList, Bool.and_eq_true] at hk
        have hk0 : k0.toLower = 'k' := by
          have := hk.1
          simp only [ciEq, decide_eq_true_eq] at this
          simpa using this
        have h1' : k0 ≠ '_' := by
          intro hh
          rw [hh] at hk0
          exact absurd hk0 (by decide)
        have h2' : k0 ≠ '-' := by
          intro hh
          rw [hh] at hk0
          exact absurd hk0 (by decide)
        show (if (decide (k0 = '_') || decide (k0 = '-')) = true
            then stripCI ("key".toList) (k' ++ r)
            else stripCI ("key".toList) (k0 :: (k' ++ r))) = some r
        rw [if_neg (by simp [h1', h2'])]
        apply (stripCI_eq_some_iff _ _ _).mpr
        refine ⟨k0 :: k', by simp, ?_⟩
        rw [hkey]
        simp only [ciEqList, Bool.and_eq_true]
        exact ⟨hk.1, hk.2⟩
    · show (if (decide ('_' = '_') || decide ('_' = '-')) = true
          then stripCI ("key".toList) (k ++ r)
          else stripCI ("key".toList) ('_' :: (k ++ r))) = some r
      rw [if_pos (by decide)]
      exact (stripCI_eq_some_iff _ _ _).mpr ⟨k, rfl, hk⟩
    · show (if (decide ('-' = '_') || decide ('-' = '-')) = true
          then stripCI ("key".toList) (k ++ r)
          else stripCI ("key".toList) ('-' :: (k ++ r))) = some r
      rw [if_pos (by decide)]
      exact (stripCI_eq_some_iff _ _ _).mpr ⟨k, rfl, hk⟩

theorem passwordFires_iff (l : List Char) :
    passwordFires l = true ↔
      credAssignDecomp (fun pre => ciEqList pre ("password".toList) = true) l :=
  searchStripAssign_iff _ _ (stripCI_eq_some_iff ("password".toList)) l

theorem apiKeyFires_iff (l : List Char) :
    apiKeyFires l = true ↔ credAssignDecomp apiKeyForm l :=
  searchStripAssign_iff _ _ stripApiKey_eq_some_iff l

theorem secretFires_iff (l : List Char) :
    secretFires l = true ↔
      credAssignDecomp (fun pre => ciEqList pre ("secret".toList) = true) l :=
  searchStripAssign_iff _ _ (stripCI_eq_some_iff ("secret".toList)) l

theorem tokenFires_iff (l : List Char) :
    tokenFires l = true ↔
      credAssignDecomp (fun pre => ciEqList pre ("token".toList) = true) l :=
  searchStripAssign_iff _ _ (stripCI_eq_some_iff ("token".toList)) l

/-- The amended keyword condition: one of the four credential keywords,
with the variant spellings of the api-key regex. -/
def credKeywordForm (pre : List Char) : Prop :=
  ciEqList pre ("password".toList) = true ∨ apiKeyForm pre ∨
    ciEqList pre ("secret".toList) = true ∨ ciEqList pre ("token".toList) = true

/-- C5 (amended): a language-agnostic credential rule fires on a line
exactly when some occurrence of `password`, `api`(`_`/`-`/nothing)`key`,
`secret` or `token` (case-insensitively) is followed by optional
whitespace, `=`, optional whitespace, and a single- or double-quoted
literal of at least one non-quote character.  (`:` never triggers these
rules, and no minimum length of 8 applies — those belong to the
separate YAML rule.) -/
theorem C5_amended_characterization (l : List Char) :
    common_credential_fires l = true ↔ credAssignDecomp credKeywordForm l := by
  have h0 : common_credential_fires l = true ↔
      (passwordFires l = true ∨ apiKeyFires l = true ∨
        secretFires l = true ∨ tokenFires l = true) := by
    simp [common_credential_fires, common_patterns, List.any_cons, List.any_nil,
      Bool.or_eq_true]
  rw [h0, passwordFires_iff, apiKeyFires_iff, secretFires_iff, tokenFires_iff]
  constructor
  · rintro (h | h | h | h) <;>
      obtain ⟨s1, pre, w1, w2, q, b, q2, s2, rfl, hkw, h3, h4, h5, h6, h7, h8⟩ := h
    · exact ⟨s1, pre, w1, w2, q, b, q2, s2, rfl, Or.inl hkw, h3, h4, h5, h6, h7, h8⟩
    · exact ⟨s1, pre, w1, w2, q, b, q2, s2, rfl, Or.inr (Or.inl hkw), h3, h4, h5, h6, h7, h8⟩
    · exact ⟨s1, pre, w1, w2, q, b, q2, s2, rfl, Or.inr (Or.inr (Or.inl hkw)),
        h3, h4, h5, h6, h7, h8⟩
    · exact ⟨s1, pre, w1, w2, q, b, q2, s2, rfl, Or.inr (Or.inr (Or.inr hkw)),
        h3, h4, h5, h6, h7, h8⟩
  · rintro ⟨s1, pre, w1, w2, q, b, q2, s2, rfl, hkw, h3, h4, h5, h6, h7, h8⟩
    rcases hkw with hk | hk | hk | hk
    · exact Or.inl ⟨s1, pre, w1, w2, q, b, q2, s2, rfl, hk, h3, h4, h5, h6, h7, h8⟩
    · exact Or.inr (Or.inl ⟨s1, pre, w1, w2, q, b, q2, s2, rfl, hk, h3, h4, h5, h6, h7, h8⟩)
    · exact Or.inr (Or.inr (Or.inl
        ⟨s1, pre, w1, w2, q, b, q2, s2, rfl, hk, h3, h4, h5, h6, h7, h8⟩))
    · exact Or.inr (Or.inr (Or.inr
        ⟨s1, pre, w1, w2, q, b, q2, s2, rfl, hk, h3, h4, h5, h6, h7, h8⟩))

/-! ## Python structured analysis (C6)

`ast.parse` cannot be embedded; the parse outcome — the module body as
a tree of abstract nodes, or the `SyntaxError` — is passed to the
embedded functions as an explicit argument.  The node type records
exactly the attributes the source walks inspect. -/

/-- The node kinds the AST walks of the source distinguish. -/
inductive PyKind where
  | functionDef
  | asyncFunctionDef
  | classDef
  | ifStmt
  | whileStmt
  | forStmt
  | asyncForStmt
  | exceptHandler
  | comprehension
  | boolOp
  | other
deriving DecidableEq, Repr

/-- An abstract Python AST node: its kind, `len(node.args.args)` for
function definitions, `len(node.values)` for boolean operators, the
optional `lineno`, and the child nodes. -/
inductive PyNode where
  | mk (kind : PyKind) (argCount : Nat) (nValues : Nat)
      (lineno : Option Nat) (children : List PyNode)

def PyNode.kind : PyNode → PyKind
  | .mk k _ _ _ _ => k

def PyNode.argCount : PyNode → Nat
  | .mk _ a _ _ _ => a

def PyNode.nValues : PyNode → Nat
  | .mk _ _ v _ _ => v

def PyNode.lineno : PyNode → Option Nat
  | .mk _ _ _ ln _ => ln

def PyNode.children : PyNode → List PyNode
  | .mk _ _ _ _ cs => cs

mutual

def nodeWeight : PyNode → Nat
  | .mk _ _ _ _ cs => 1 + listWeight cs

def listWeight : List PyNode → Nat
  | [] => 0
  | n :: ns => nodeWeight n + listWeight ns

end

theorem listWeight_append (l1 l2 : List PyNode) :
    listWeight (l1 ++ l2) = listWeight l1 + listWeight l2 := by
  induction l1 with
  | nil => simp [listWeight]
  | cons n ns ih => simp [listWeight, ih]; omega

/-- `ast.walk`: breadth-first traversal driven by a queue. -/
def pyWalk : List PyNode → List PyNode
  | [] => []
  | n :: rest => n :: pyWalk (rest ++ n.children)
termination_by l => listWeight l
decreasing_by
  cases n with
  | mk k a v ln cs =>
    simp only [PyNode.children, listWeight, nodeWeight, listWeight_append]
    omega

/-- The per-node increment of `_count_decision_points`
(helpers.py lines 237-251). -/
def decisionContribution (n : PyNode) : Nat :=
  match n.kind with
  | .ifStmt => 1
  | .whileStmt => 1
  | .forStmt => 1
  | .asyncForStmt => 1
  | .exceptHandler => 1
  | .comprehension => 1
  | .boolOp => n.nValues - 1
  | _ => 0

/-- `_count_decision_points(node)`: base complexity 1 plus the
contributions over `ast.walk(node)` (which includes the node itself). -/
def count_decision_points (n : PyNode) : Nat :=
  1 + ((pyWalk [n]).map decisionContribution).sum

/-- A Python `SyntaxError`: message and optional line number. -/
structure PySyntaxError where
  msg : String
  lineno : Option Nat
deriving DecidableEq, Repr

/-- The `cyclomatic_complexity`/`functions`/`classes` entries that
`_analyze_python_complexity` merges into the metric dict. -/
structure StructuralMetrics where
  cyclomatic_complexity : Nat
  functions : Nat
  classes : Nat
deriving DecidableEq, Repr

def isFunctionKind (k : PyKind) : Bool :=
  k = PyKind.functionDef || k = PyKind.asyncFunctionDef

/-- `_analyze_python_complexity` (helpers.py lines 177-195): on a
successful parse, tally function/class nodes over `ast.walk` and add
`_count_decision_points` per function node; on a `SyntaxError` the
`except SyntaxError: pass` leaves all three metrics at their initial 0. -/
def analyze_python_complexity (parse : Except PySyntaxError (List PyNode)) :
    StructuralMetrics :=
  match parse with
  | .error _ => ⟨0, 0, 0⟩
  | .ok body =>
    let walked := pyWalk body
    ⟨(walked.map fun n =>
        if isFunctionKind n.kind then count_decision_points n else 0).sum,
     (walked.filter fun n => isFunctionKind n.kind).length,
     (walked.filter fun n => n.kind = PyKind.classDef).length⟩

/-- `_get_comment_patterns` (helpers.py lines 151-174). -/
def comment_patterns (language : String) : List String :=
  if language = "python" then ["#"]
  else if language = "javascript" then ["//", "/*"]
  else if language = "typescript" then ["//", "/*"]
  else if language = "java" then ["//", "/*"]
  else if language = "go" then ["//", "/*"]
  else if language = "rust" then ["//", "/*"]
  else if language = "cpp" then ["//", "/*"]
  else if language = "c" then ["//", "/*"]
  else if language = "csharp" then ["//", "/*"]
  else if language = "php" then ["//", "/*", "#"]
  else if language = "ruby" then ["#"]
  else if language = "swift" then ["//", "/*"]
  else if language = "kotlin" then ["//", "/*"]
  else if language = "scala" then ["//", "/*"]
  else if language = "r" then ["#"]
  else if language = "sql" then ["--", "/*"]
  else if language = "bash" then ["#"]
  else if language = "powershell" then ["#"]
  else ["#", "//"]

/-- `str.startswith` on character lists. -/
def startsWithChars : List Char → List Char → Bool
  | [], _ => true
  | _ :: _, [] => false
  | p :: ps, c :: cs => p = c && startsWithChars ps cs

/-- The blank/comment counting loop of `calculate_complexity`
(helpers.py lines 102-107): blank if the stripped line is empty, else a
comment if it starts with one of the language's comment markers. -/
def count_blank_comment (pats : List (List Char)) (lines : List (List Char)) : Nat × Nat :=
  lines.foldl (fun acc l =>
    let stripped := trimChars l
    if stripped.isEmpty then (acc.1 + 1, acc.2)
    else if pats.any (fun p => startsWithChars p stripped) then (acc.1, acc.2 + 1)
    else acc) (0, 0)

/-- `calculate_complexity` (helpers.py lines 78-118) for
`language = 'python'`: `lines_of_code` is the number of `\n`-split
lines, blank/comment lines from the counting loop, and the structural
metrics from `_analyze_python_complexity` on the parse outcome. -/
def calculate_complexity_python (content : List Char)
    (parse : Except PySyntaxError (List PyNode)) : Metrics :=
  let lines := splitOnNl content
  let bc := count_blank_comment ((comment_patterns "python").map String.toList) lines
  let sm := analyze_python_complexity parse
  ⟨lines.length, bc.1, bc.2, sm.cyclomatic_complexity, sm.functions, sm.classes⟩

/-- `_analyze_python_quality` (analyzer.py lines 528-580), with the
`ast.parse` outcome explicit.  On success the AST walk flags functions
with more than 7 arguments and nodes whose line exceeds 120 characters;
on a `SyntaxError` exactly one high-severity `syntax_error` issue is
returned, at line `e.lineno or 0`. -/
def analyze_python_quality (content : List Char)
    (parse : Except PySyntaxError (List PyNode)) : List Issue :=
  match parse with
  | .error e =>
    [⟨"quality", "syntax_error", "high", "Syntax error: " ++ e.msg,
      e.lineno.getD 0, ""⟩]
  | .ok body =>
    let lines := splitOnNl content
    (pyWalk body).flatMap fun n =>
      (if isFunctionKind n.kind && decide (n.argCount > 7) then
        [⟨"quality", "too_many_arguments", "medium",
          "Function has " ++ toString n.argCount ++ " arguments (max recommended: 7)",
          n.lineno.getD 0, ""⟩]
       else []) ++
      (match n.lineno with
       | some ln =>
         let line := if ln ≤ lines.length then lines.getD (ln - 1) [] else []
         if line.length > 120 then
           [⟨"quality", "long_line", "low",
             "Line length " ++ toString line.length ++ " exceeds 120 characters",
             ln, ""⟩]
         else []
       | none => [])

/-- Modelled from the spec: the "regex approximation" fallback that
§4.2 claims computes the remaining metrics when a Python parse fails
("approximate using line-level regular-expression counts of decision
keywords ... and function/class declaration patterns").  No such
fallback exists for Python in the source (the `except SyntaxError`
branch of `_analyze_python_complexity` just passes); this definition
only serves to exhibit that divergence. -/
def spec_python_regex_fallback (content : List Char) : StructuralMetrics :=
  let lines := (splitOnNl content).map trimChars
  ⟨(lines.filter fun l =>
      startsWithChars ("if ".toList) l || startsWithChars ("while ".toList) l ||
        startsWithChars ("for ".toList) l || startsWithChars ("elif ".toList) l).length,
   (lines.filter fun l =>
      startsWithChars ("def ".toList) l ||
        startsWithChars ("async def ".toList) l).length,
   (lines.filter fun l => startsWithChars ("class ".toList) l).length⟩

/-- The parse outcome CPython reports for the content `def broken(:`
(a syntax error on line 1). -/
def broken_pyparse : Except PySyntaxError (List PyNode) :=
  .error ⟨"invalid syntax", some 1⟩

/-- Counterexample to C6: on the unparseable content `def broken(:` the
source does emit the single high-severity `syntax_error` issue, but the
remaining metrics are *not* computed via a regex approximation — the
code leaves functions/complexity/classes at 0, while the spec's
fallback would count one function declaration. -/
theorem C6_counterexample_no_regex_fallback :
    analyze_python_quality (("def broken(:").toList) broken_pyparse =
      [⟨"quality", "syntax_error", "high", "Syntax error: invalid syntax", 1, ""⟩] ∧
    analyze_python_complexity broken_pyparse = ⟨0, 0, 0⟩ ∧
    (spec_python_regex_fallback (("def broken(:").toList)).functions = 1 := by
  refine ⟨?_, ?_, ?_⟩
  · decide
  · decide
  · decide

/-- C6 (amended): for every Python file whose content fails to parse,
the analysis does not raise: `_analyze_python_quality` returns exactly
one high-severity `syntax_error` quality issue (at `e.lineno or 0`),
and the metrics keep cyclomatic complexity, function count and class
count at 0 — there is no regex-approximation fallback for Python; only
the line metrics are still computed from the content. -/
theorem C6_amended_syntax_error_behavior (content : List Char) (e : PySyntaxError) :
    analyze_python_quality content (.error e) =
      [⟨"quality", "syntax_error", "high", "Syntax error: " ++ e.msg,
        e.lineno.getD 0, ""⟩] ∧
    (calculate_complexity_python content (.error e)).cyclomatic_complexity = 0 ∧
    (calculate_complexity_python content (.error e)).functions = 0 ∧
    (calculate_complexity_python content (.error e)).classes = 0 ∧
    (calculate_complexity_python content (.error e)).lines_of_code =
      (splitOnNl content).length := by
  exact ⟨rfl, rfl, rfl, rfl, rfl⟩

/-! ## Repository aggregation (`analyze_repository`, C7 and C8) -/

/-- A per-file analysis result, as far as aggregation consumes it: the
language and the three scores (the `AnalysisResult` fields used by the
loop, `_calculate_overall_scores` and the histogram). -/
structure FileResult where
  language : String
  security_score : Int
  quality_score : Int
  performance_score : Int
deriving DecidableEq, Repr

/-- The `overall_scores` dictionary: Python float means, embedded as
exact rationals. -/
structure RepoScores where
  security : Rat
  quality : Rat
  performance : Rat
deriving DecidableEq, Repr

/-- `_calculate_overall_scores` (analyzer.py lines 1239-1252): all
zeros when no files were analyzed, else the arithmetic means. -/
def calculate_overall_scores (results : List FileResult) : RepoScores :=
  if results.isEmpty then ⟨0, 0, 0⟩
  else
    ⟨((results.map (·.security_score)).sum : Rat) / (results.length : Rat),
     ((results.map (·.quality_score)).sum : Rat) / (results.length : Rat),
     ((results.map (·.performance_score)).sum : Rat) / (results.length : Rat)⟩

/-- One histogram update, `languages[lang] = languages.get(lang, 0) + 1`,
with dict insertion order preserved as in Python. -/
def bumpLanguage : List (String × Nat) → String → List (String × Nat)
  | [], lang => [(lang, 1)]
  | (k, v) :: rest, lang =>
    if k = lang then (k, v + 1) :: rest else (k, v) :: bumpLanguage rest lang

/-- The analysis loop of `analyze_repository` (analyzer.py lines
192-208): walk the analyzable files in discovery order, break once 100
results are collected; a file for which `analyze_file` yields nothing
(returned `None`, or raised — both are logged and swallowed)
contributes no result. -/
def run_analysis_loop {α : Type} (analyze : α → Option FileResult) :
    List α → List FileResult → List FileResult
  | [], acc => acc
  | f :: fs, acc =>
    if acc.length ≥ 100 then acc
    else
      match analyze f with
      | some r => run_analysis_loop analyze fs (acc ++ [r])
      | none => run_analysis_loop analyze fs acc

/-- The fields of `RepositoryAnalysis` with algorithmic content. -/
structure RepoAnalysis where
  total_files : Nat
  analyzed_files : Nat
  languages : List (String × Nat)
  overall_scores : RepoScores
  file_results : List FileResult
deriving Repr

/-- `analyze_repository` (analyzer.py lines 178-234), abstracted over
the discovered file list (`_discover_files`), the analyzability test
(`_is_analyzable`) and per-file analysis (`analyze_file`; `none`
covers a skipped file as well as a swallowed per-file exception).  The
language histogram is incremented exactly when a result is appended, so
it equals the fold over the final result list. -/
def analyze_repository {α : Type} (all_files : List α) (analyzable : α → Bool)
    (analyze_file : α → Option FileResult) : RepoAnalysis :=
  let analyzable_files := all_files.filter analyzable
  let results := run_analysis_loop analyze_file analyzable_files []
  { total_files := all_files.length
    analyzed_files := results.length
    languages := (results.map (·.language)).foldl bumpLanguage []
    overall_scores := calculate_overall_scores results
    file_results := results }

theorem length_filterMap_of_all_isSome {α β : Type} (f : α → Option β) :
    ∀ l : List α, (∀ a ∈ l, (f a).isSome) → (l.filterMap f).length = l.length := by
  intro l
  induction l with
  | nil => intro _; rfl
  | cons a l ih =>
    intro h
    obtain ⟨b, hb⟩ := Option.isSome_iff_exists.mp (h a (List.mem_cons_self a l))
    simp [List.filterMap_cons, hb, ih (fun x hx => h x (List.mem_cons_of_mem a hx))]

theorem run_analysis_loop_all_some {α : Type} (analyze : α → Option FileResult) :
    ∀ (files : List α) (acc : List FileResult),
      (∀ f ∈ files, (analyze f).isSome) → acc.length ≤ 100 →
      run_analysis_loop analyze files acc =
        acc ++ (files.take (100 - acc.length)).filterMap analyze := by
  intro files
  induction files with
  | nil =>
    intro acc _ _
    simp [run_analysis_loop]
  | cons f fs ih =>
    intro acc hall hlen
    by_cases hfull : acc.length ≥ 100
    · have h100 : 100 - acc.length = 0 := by omega
      simp [run_analysis_loop, hfull, h100]
    · have hsome := hall f (List.mem_cons_self f fs)
      obtain ⟨r, hr⟩ := Option.isSome_iff_exists.mp hsome
      simp only [run_analysis_loop, if_neg hfull, hr]
      rw [ih (acc ++ [r]) (fun g hg => hall g (List.mem_cons_of_mem f hg))
        (by simp only [List.length_append, List.length_cons, List.length_nil]; omega)]
      have htake : 100 - acc.length = (100 - (acc.length + 1)) + 1 := by omega
      rw [htake]
      simp [List.take_succ_cons, List.filterMap_cons, hr]

theorem run_analysis_loop_length_le {α : Type} (analyze : α → Option FileResult) :
    ∀ (files : List α) (acc : List FileResult),
      (run_analysis_loop analyze files acc).length ≤ acc.length + files.length := by
  intro files
  induction files with
  | nil =>
    intro acc
    simp [run_analysis_loop]
  | cons f fs ih =>
    intro acc
    simp only [run_analysis_loop]
    by_cases hfull : acc.length ≥ 100
    · simp only [if_pos hfull, List.length_cons]
      omega
    · rw [if_neg hfull]
      cases hr : analyze f with
      | some r =>
        have := ih (acc ++ [r])
        simp only [List.length_append, List.length_cons, List.length_nil] at this ⊢
        omega
      | none =>
        have := ih acc
        simp only [List.length_cons]
        omega

/-- C7: when 150 analyzable files are discovered and each produces a
result, exactly the first 100 in discovery order are analyzed and
`analyzed_files` is 100; the cap just breaks the loop, the analysis
still returns its normal result. -/
theorem C7_file_cap (α : Type) (all_files : List α) (analyzable : α → Bool)
    (analyze_file : α → Option FileResult)
    (hn : (all_files.filter analyzable).length = 150)
    (hall : ∀ f ∈ all_files.filter analyzable, (analyze_file f).isSome) :
    (analyze_repository all_files analyzable analyze_file).file_results =
      ((all_files.filter analyzable).take 100).filterMap analyze_file ∧
    (analyze_repository all_files analyzable analyze_file).analyzed_files = 100 := by
  have hloop := run_analysis_loop_all_some analyze_file (all_files.filter analyzable) []
      hall (by simp)
  simp only [List.length_nil, Nat.sub_zero, List.nil_append] at hloop
  constructor
  · show run_analysis_loop analyze_file (all_files.filter analyzable) [] = _
    exact hloop
  · show (run_analysis_loop analyze_file (all_files.filter analyzable) []).length = 100
    rw [hloop, length_filterMap_of_all_isSome analyze_file _
      (fun f hf => hall f (List.take_subset _ _ hf))]
    simp [List.length_take, hn]

/-- Witness for C7: 150 concrete files, each analyzable and each
producing a result; exactly 100 are analyzed. -/
theorem C7_file_cap_witness :
    (analyze_repository (List.range 150) (fun _ => true)
      (fun _ => some ⟨"python", 100, 100, 100⟩)).analyzed_files = 100 :=
  (C7_file_cap Nat (List.range 150) (fun _ => true)
    (fun _ => some ⟨"python", 100, 100, 100⟩)
    (by simp) (fun f _ => rfl)).2

/-- C8: for every repository analysis, `analyzed_files ≤ total_files`;
and when `total_files = 0`, no file is analyzed and all three aggregate
scores are 0. -/
theorem C8_analyzed_le_total (α : Type) (all_files : List α) (analyzable : α → Bool)
    (analyze_file : α → Option FileResult) :
    (analyze_repository all_files analyzable analyze_file).analyzed_files ≤
      (analyze_repository all_files analyzable analyze_file).total_files ∧
    ((analyze_repository all_files analyzable analyze_file).total_files = 0 →
      (analyze_repository all_files analyzable analyze_file).analyzed_files = 0 ∧
      (analyze_repository all_files analyzable analyze_file).overall_scores = ⟨0, 0, 0⟩) := by
  constructor
  · show (run_analysis_loop analyze_file (all_files.filter analyzable) []).length ≤
      all_files.length
    calc (run_analysis_loop analyze_file (all_files.filter analyzable) []).length
        ≤ ([] : List FileResult).length + (all_files.filter analyzable).length :=
          run_analysis_loop_length_le analyze_file _ []
      _ ≤ all_files.length := by
          simpa using List.length_filter_le analyzable all_files
  · intro h0
    have hnil : all_files = [] := List.length_eq_zero.mp h0
    subst hnil
    exact ⟨rfl, rfl⟩

/-- Witness for C8: on the empty repository the implication's premise
holds and yields zero analyzed files and zero scores. -/
theorem C8_analyzed_le_total_witness :
    (analyze_repository ([] : List Nat) (fun _ => true) (fun _ => none)).analyzed_files = 0 ∧
    (analyze_repository ([] : List Nat) (fun _ => true)
      (fun _ => none)).overall_scores = ⟨0, 0, 0⟩ :=
  (C8_analyzed_le_total Nat [] (fun _ => true) (fun _ => none)).2 rfl

/-! ## Suggestion generator (`_generate_suggestions`, C9) -/

/-- A suggestion record. -/
structure Suggestion where
  type : String
  priority : String
  description : String
  category : String
deriving DecidableEq, Repr

/-- The secrets-management suggestion (analyzer.py lines 1204-1209). -/
def secrets_suggestion : Suggestion :=
  ⟨"security", "high",
   "Use environment variables or secure configuration files for secrets",
   "best_practices"⟩

/-- The refactoring suggestion (analyzer.py lines 1212-1217). -/
def refactoring_suggestion : Suggestion :=
  ⟨"refactoring", "medium",
   "Consider breaking down complex functions into smaller, more manageable pieces",
   "maintainability"⟩

/-- The print-to-logging suggestion (analyzer.py lines 1221-1226). -/
def print_logging_suggestion : Suggestion :=
  ⟨"quality", "low", "Replace print statements with proper logging", "best_practices"⟩

/-- The var-modernization suggestion (analyzer.py lines 1230-1235). -/
def var_modernization_suggestion : Suggestion :=
  ⟨"modernization", "medium",
   "Replace var with let/const for better scoping and immutability", "modern_syntax"⟩

/-- `_generate_suggestions` (analyzer.py lines 1191-1237).  The source
builds a type→count dict and tests key membership; key membership in
that dict is exactly membership of the type in the issue list. -/
def generate_suggestions (issues : List Issue) (metrics : Metrics)
    (language : String) : List Suggestion :=
  let types := issues.map (·.type)
  (if types.contains "hardcoded_password" || types.contains "hardcoded_api_key" then
    [secrets_suggestion] else []) ++
  (if metrics.cyclomatic_complexity > 15 then [refactoring_suggestion] else []) ++
  (if language = "python" then
    (if types.contains "console_statement" then [print_logging_suggestion] else [])
   else if language = "javascript" || language = "typescript" then
    (if types.contains "var_usage" then [var_modernization_suggestion] else [])
   else [])

/-- Counterexample to C9: `secret = "abcd1234"` is flagged by the
engine's own language-agnostic credential rule as a `hardcoded_secret`
issue (a hardcoded-credential type), yet `_generate_suggestions` —
which only tests for `hardcoded_password` and `hardcoded_api_key` —
emits no secrets-management suggestion: its output is empty. -/
theorem C9_counterexample_hardcoded_secret :
    (pattern_security_issues "python" (("secret = \"abcd1234\"").toList)).map (·.type) =
      ["hardcoded_secret"] ∧
    generate_suggestions
      (pattern_security_issues "python" (("secret = \"abcd1234\"").toList))
      ⟨1, 0, 0, 0, 0, 0⟩ "python" = [] := by
  constructor
  · decide
  · decide

/-- C9 (amended): the high-priority secrets-management suggestion is
emitted when a `hardcoded_password`- or `hardcoded_api_key`-typed issue
is present (the credential types `hardcoded_secret`/`hardcoded_token`
do not trigger it), and the medium-priority refactoring suggestion is
emitted whenever the file's cyclomatic complexity exceeds 15. -/
theorem C9_amended_suggestions (issues : List Issue) (metrics : Metrics)
    (language : String) :
    ((∃ i ∈ issues, i.type = "hardcoded_password" ∨ i.type = "hardcoded_api_key") →
      secrets_suggestion ∈ generate_suggestions issues metrics language ∧
      secrets_suggestion.priority = "high") ∧
    (metrics.cyclomatic_complexity > 15 →
      refactoring_suggestion ∈ generate_suggestions issues metrics language ∧
      refactoring_suggestion.priority = "medium") := by
  constructor
  · intro hcred
    refine ⟨?_, rfl⟩
    have hc : ((issues.map (·.type)).contains "hardcoded_password" ||
        (issues.map (·.type)).contains "hardcoded_api_key") = true := by
      obtain ⟨i, hi, hty⟩ := hcred
      simp only [Bool.or_eq_true]
      rcases hty with h | h
      · exact Or.inl (List.elem_iff.mpr (List.mem_map.mpr ⟨i, hi, h⟩))
      · exact Or.inr (List.elem_iff.mpr (List.mem_map.mpr ⟨i, hi, h⟩))
    simp only [generate_suggestions, hc, if_true]
    simp
  · intro h15
    refine ⟨?_, rfl⟩
    simp only [generate_suggestions, if_pos h15]
    simp

/-- Witness for C9: a file with one hardcoded_password issue and
complexity 16 receives both suggestions. -/
theorem C9_amended_suggestions_witness :
    (secrets_suggestion ∈ generate_suggestions
      [⟨"security", "hardcoded_password", "high", "d", 1, "c"⟩]
      ⟨1, 0, 0, 16, 0, 0⟩ "python") ∧
    (refactoring_suggestion ∈ generate_suggestions
      [⟨"security", "hardcoded_password", "high", "d", 1, "c"⟩]
      ⟨1, 0, 0, 16, 0, 0⟩ "python") := by
  have h := C9_amended_suggestions
    [⟨"security", "hardcoded_password", "high", "d", 1, "c"⟩]
    ⟨1, 0, 0, 16, 0, 0⟩ "python"
  exact ⟨(h.1 ⟨_, List.mem_cons_self _ _, Or.inl rfl⟩).1, (h.2 (by decide)).1⟩

/-! ## Language classification (C10) -/

/-- `_get_supported_languages` (analyzer.py lines 99-127): the registry
in dict insertion order. -/
def supported_languages : List (String × List String) :=
  [("python", [".py", ".pyw"]),
   ("javascript", [".js", ".jsx", ".mjs"]),
   ("typescript", [".ts", ".tsx"]),
   ("java", [".java"]),
   ("go", [".go"]),
   ("rust", [".rs"]),
   ("cpp", [".cpp", ".cc", ".cxx", ".c++", ".hpp", ".h"]),
   ("c", [".c", ".h"]),
   ("csharp", [".cs"]),
   ("php", [".php"]),
   ("ruby", [".rb"]),
   ("swift", [".swift"]),
   ("kotlin", [".kt"]),
   ("scala", [".scala"]),
   ("r", [".r", ".R"]),
   ("sql", [".sql"]),
   ("bash", [".sh"]),
   ("powershell", [".ps1"]),
   ("yaml", [".yml", ".yaml"]),
   ("json", [".json"]),
   ("xml", [".xml"]),
   ("html", [".html", ".htm"]),
   ("css", [".css"]),
   ("scss", [".scss"]),
   ("less", [".less"])]

/-- `_detect_language` (analyzer.py lines 324-332): the first registry
entry, in insertion order, whose extension list contains the file's
extension. -/
def detect_language (ext : String) : Option String :=
  supported_languages.findSome? fun entry =>
    if entry.2.contains ext then some entry.1 else none

/-- `Path(...).name`: everything after the last `/`. -/
def lastPathComponent (p : List Char) : List Char :=
  (p.reverse.takeWhile fun c => !(c = '/')).reverse

/-- `PurePath.suffix`: the last dot-suffix of the final component;
empty when the name has no dot, when its only dot is the leading
character, or when it ends in a dot. -/
def pathSuffix (p : List Char) : List Char :=
  let name := lastPathComponent p
  let afterDot := name.reverse.takeWhile fun c => !(c = '.')
  if afterDot.length = name.length then []
  else if afterDot.length = 0 then []
  else if afterDot.length + 1 = name.length then []
  else '.' :: afterDot.reverse

/-- `get_file_extension` (helpers.py lines 54-56):
`Path(file_path).suffix.lower()`. -/
def get_file_extension (p : String) : String :=
  String.mk ((pathSuffix p.toList).map Char.toLower)

/-- C10: every file path whose lowercased extension is `.h` is detected
as `cpp` — never as `c` — because the registry is scanned in insertion
order and the `cpp` entry (whose list also holds `.h`) precedes the `c`
entry (which lists `.h` as well). -/
theorem C10_h_extension_is_cpp (p : String)
    (h : get_file_extension p = ".h") :
    detect_language (get_file_extension p) = some "cpp" ∧
    detect_language (get_file_extension p) ≠ some "c" ∧
    (∃ e ∈ supported_languages, e.1 = "cpp" ∧ ".h" ∈ e.2) ∧
    (∃ e ∈ supported_languages, e.1 = "c" ∧ ".h" ∈ e.2) := by
  rw [h]
  refine ⟨by decide, by decide, by decide, by decide⟩

/-- Witness for C10: the concrete path `src/main.h`. -/
theorem C10_h_extension_is_cpp_witness :
    detect_language (get_file_extension "src/main.h") = some "cpp" :=
  (C10_h_extension_is_cpp "src/main.h" (by decide)).1

end MCP
